import Mathlib

/-!
Verification development for the "Worktree Colors" VS Code extension.

The TypeScript sources are shallowly embedded:
* JS numbers used by the color engine are modelled as rationals (`ℚ`);
  the operations the code performs on them (`Math.min`, `Math.abs`,
  `Math.round`, `%`, `/`) are exact on the values the claims exercise.
* JS objects holding `workbench.colorCustomizations` are modelled as
  association lists `List (String × String)`; an absent configuration
  value is `Option.none`.
* Bitwise operations of `stringToHue` are modelled on `ℤ` with an
  explicit wrap to a 32-bit signed integer.
* Filesystem and subprocess results consumed by `git.ts` are supplied
  through an explicit environment record (`GitEnv`), so the functions
  become pure functions of those inputs.
-/

/-! ## JS number primitives (exact rational model) -/

/-- JS `Math.trunc` on a rational: round toward zero. -/
def jsTrunc (q : ℚ) : ℤ :=
  if 0 ≤ q then ⌊q⌋ else ⌈q⌉

/-- JS `%` (remainder with the sign of the dividend): `a - b * trunc (a / b)`. -/
def jsMod (a b : ℚ) : ℚ :=
  a - b * ((jsTrunc (a / b) : ℤ) : ℚ)

/-- JS `Math.round`: half-up rounding, `⌊q + 1/2⌋`. -/
def jsRound (q : ℚ) : ℤ :=
  ⌊q + 1 / 2⌋

/-- JS `n.toString(16)` for a non-negative integer (lowercase hex digits). -/
def natHexRepr (n : ℕ) : String :=
  String.mk (Nat.toDigits 16 n)

/-- JS `i.toString(16)` for a possibly negative integer. -/
def intHexRepr (i : ℤ) : String :=
  if i < 0 then "-" ++ natHexRepr i.natAbs else natHexRepr i.natAbs

/-! ## colors-utils.ts -/

/-- `ColorConfig` from `src/colors-utils.ts` (numeric fields as rationals). -/
structure ColorConfig where
  saturation : ℚ
  baseLightness : ℚ
  worktreeLightnessStep : ℚ
  affectTitleBar : Bool
  affectActivityBar : Bool
  affectStatusBar : Bool

/-- Wrap an integer to a 32-bit signed integer, as JS `x & x` / `ToInt32` does. -/
def toInt32 (n : ℤ) : ℤ :=
  let m := n % 4294967296
  if m < 2147483648 then m else m - 4294967296

/-- One step of the `stringToHue` loop:
`hash = (hash << 5) - hash + char; hash = hash & hash`.
`hash << 5` itself wraps to 32-bit, hence the inner `toInt32`. -/
def hueStep (h : ℤ) (c : Char) : ℤ :=
  toInt32 (toInt32 (h * 32) - h + (c.toNat : ℤ))

/-- `stringToHue` from `src/colors-utils.ts`:
rolling hash over the character codes, then `Math.abs(hash) % 360`. -/
def stringToHue (s : String) : ℕ :=
  (s.data.foldl hueStep 0).natAbs % 360

/-- The `toHex` helper inside `hslToHex`:
`Math.round((n + m) * 255).toString(16)`, left-padded to two digits. -/
def toHexComp (n m : ℚ) : String :=
  let hex := intHexRepr (jsRound ((n + m) * 255))
  if hex.length == 1 then "0" ++ hex else hex

/-- `hslToHex` from `src/colors-utils.ts`: piecewise HSL→RGB conversion. -/
def hslToHex (h s l : ℚ) : String :=
  let sNorm := s / 100
  let lNorm := l / 100
  let c := (1 - |2 * lNorm - 1|) * sNorm
  let x := c * (1 - |jsMod (h / 60) 2 - 1|)
  let m := lNorm - c / 2
  let rgb : ℚ × ℚ × ℚ :=
    if 0 ≤ h ∧ h < 60 then (c, x, 0)
    else if 60 ≤ h ∧ h < 120 then (x, c, 0)
    else if 120 ≤ h ∧ h < 180 then (0, c, x)
    else if 180 ≤ h ∧ h < 240 then (0, x, c)
    else if 240 ≤ h ∧ h < 300 then (x, 0, c)
    else (c, 0, x)
  "#" ++ toHexComp rgb.1 m ++ toHexComp rgb.2.1 m ++ toHexComp rgb.2.2 m

/-- JS `'#'.replace` used by `addAlpha`: drop one leading `#` if present. -/
def stripHash (s : String) : String :=
  if "#".data.isPrefixOf s.data then String.mk (s.data.drop 1) else s

/-- `addAlpha` from `src/colors-utils.ts`:
`hex + round(alpha*255).toString(16).padStart(2,'0')`. -/
def addAlpha (hexColor : String) (alpha : ℚ) : String :=
  let hex := stripHash hexColor
  let alphaHex :=
    let d := intHexRepr (jsRound (alpha * 255))
    if d.length < 2 then "".pushn '0' (2 - d.length) ++ d else d
  "#" ++ hex ++ alphaHex

/-- `generateColor` from `src/colors-utils.ts`:
hue from the repository identifier, lightness stepped by the worktree index
and capped at 65. -/
def generateColor (repoIdentifier : String) (worktreeIndex : ℕ)
    (config : ColorConfig) : String :=
  let hue := stringToHue repoIdentifier
  let lightness :=
    min (config.baseLightness + (worktreeIndex : ℚ) * config.worktreeLightnessStep) 65
  hslToHex (hue : ℚ) config.saturation lightness

/-! ## Configuration objects

A JS object is an ordered association list with (in our uses) distinct
keys; `objGet` is property lookup, `objMerge` is the spread
`\x7b...a, ...b\x7d`. -/

abbrev Obj := List (String × String)

/-- Property lookup on a JS object. -/
def objGet (o : Obj) (k : String) : Option String :=
  (o.find? (fun p => p.1 == k)).map (fun p => p.2)

/-- JS object spread `\x7b...a, ...b\x7d`: the entries of `a` in order, with
values overridden by `b` where `b` has the key, followed by the entries of
`b` whose keys are absent from `a`. -/
def objMerge (a b : Obj) : Obj :=
  a.map (fun p => match objGet b p.1 with
    | some v => (p.1, v)
    | none => p)
  ++ b.filter (fun p => (objGet a p.1).isNone)

/-- Deep equality of two JS objects: same value (or absence) at every key. -/
def objEquiv (a b : Obj) : Prop :=
  ∀ k, objGet a k = objGet b k

/-- Deep equality of two possibly-absent configuration objects. -/
def optObjEquiv : Option Obj → Option Obj → Prop
  | none, none => True
  | some a, some b => objEquiv a b
  | _, _ => False

/-- `MANAGED_COLOR_KEYS` from `src/colors-utils.ts`. -/
def MANAGED_COLOR_KEYS : List String :=
  ["titleBar.activeBackground",
   "titleBar.activeForeground",
   "titleBar.inactiveBackground",
   "titleBar.inactiveForeground",
   "activityBar.background",
   "activityBar.foreground",
   "activityBar.inactiveForeground",
   "statusBar.background",
   "statusBar.foreground"]

/-- `buildColorCustomizations` from `src/colors-utils.ts`.

The source computes `foreground = getContrastingForeground(baseColor)`,
a WCAG luminance comparison that raises sRGB channels to the real power
2.4; that value is outside exact arithmetic and no claim depends on it,
so the foreground string is taken as a parameter here and the theorems
quantify over it. -/
def buildColorCustomizations (baseColor foreground : String)
    (config : ColorConfig) : Obj :=
  (if config.affectTitleBar then
    [("titleBar.activeBackground", baseColor),
     ("titleBar.activeForeground", foreground),
     ("titleBar.inactiveBackground", addAlpha baseColor (6 / 10)),
     ("titleBar.inactiveForeground", addAlpha foreground (6 / 10))]
   else [])
  ++ (if config.affectActivityBar then
    [("activityBar.background", baseColor),
     ("activityBar.foreground", foreground),
     ("activityBar.inactiveForeground", addAlpha foreground (6 / 10))]
   else [])
  ++ (if config.affectStatusBar then
    [("statusBar.background", baseColor),
     ("statusBar.foreground", foreground)]
   else [])

/-! ## colors.ts: applyColors / resetColors

`workbenchConfig.get('colorCustomizations')` may be absent, hence the
store is an `Option Obj`; `update(..., undefined)` clears the setting,
modelled as `none`. -/

/-- `applyColors` from `src/colors.ts`: read the existing object (or `\x7b\x7d`),
merge the built customizations over it, write the result back. -/
def applyColors (store : Option Obj) (baseColor foreground : String)
    (config : ColorConfig) : Option Obj :=
  let colors := buildColorCustomizations baseColor foreground config
  let existingColors := store.getD []
  some (objMerge existingColors colors)

/-- `resetColors` from `src/colors.ts`: drop every managed key from the
existing object; write the remainder back, or clear the setting when
nothing remains. -/
def resetColors (store : Option Obj) : Option Obj :=
  let existingColors := store.getD []
  let filteredColors :=
    existingColors.filter (fun p => !(MANAGED_COLOR_KEYS.contains p.1))
  if 0 < filteredColors.length then some filteredColors else none

/-! ## git.ts: normalizeGitUrl

The normalizer is embedded over `List Char` so that the regex-based
transforms of the source become plain structural functions; the results
are repacked into `String` at the boundary. -/

/-- JS `String.prototype.trim`: drop leading and trailing whitespace. -/
def trimChars (l : List Char) : List Char :=
  ((l.dropWhile Char.isWhitespace).reverse.dropWhile Char.isWhitespace).reverse

/-- Split at the first occurrence of a character: `splitFirst c l = some (a, b)`
when `l = a ++ c :: b` and `c ∉ a`. -/
def splitFirst (c : Char) : List Char → Option (List Char × List Char)
  | [] => none
  | d :: rest =>
    if d = c then some ([], rest)
    else match splitFirst c rest with
      | some (a, b) => some (d :: a, b)
      | none => none

/-- The SCP-rewrite of `normalizeGitUrl`: regex `^git@([^:]+):(.+)$`
turns `git@host:path` into `host/path` (host and path non-empty, host
without a colon); anything else is left unchanged. -/
def sshRewrite (l : List Char) : List Char :=
  if "git@".data.isPrefixOf l then
    let r := l.drop 4
    match splitFirst ':' r with
    | some (host, path) =>
      if host = [] ∨ path = [] then l else host ++ '/' :: path
    | none => l
  else l

/-- `replace(new RegExp(pat), '')` for an anchored literal head pattern:
drop `pat` when it heads the string. -/
def dropHead (pat : List Char) (l : List Char) : List Char :=
  if pat.isPrefixOf l then l.drop pat.length else l

/-- The scheme strip `replace` of `normalizeGitUrl` for `^https?:\/\/`. -/
def stripHttpScheme (l : List Char) : List Char :=
  if "https://".data.isPrefixOf l then l.drop 8
  else if "http://".data.isPrefixOf l then l.drop 7
  else l

/-- The scheme strip `replace` of `normalizeGitUrl` for `^git:\/\/`. -/
def stripGitScheme (l : List Char) : List Char :=
  dropHead "git://".data l

/-- The suffix strip `replace` of `normalizeGitUrl` for `\.git$`. -/
def stripDotGit (l : List Char) : List Char :=
  if ".git".data.isSuffixOf l then l.take (l.length - 4) else l

/-- The trailing-slash strip `replace` of `normalizeGitUrl` for `\/+$`. -/
def stripTrailingSlashes (l : List Char) : List Char :=
  (l.reverse.dropWhile (fun c => c = '/')).reverse

/-- JS `toLowerCase` (ASCII range, which is all the source exercises). -/
def lowerChars (l : List Char) : List Char :=
  l.map Char.toLower

/-- `normalizeGitUrl` from `src/git.ts`: trim, SCP-rewrite, strip
`http(s)://` and `git://`, strip a trailing `.git` and trailing slashes,
lowercase. -/
def normalizeGitUrl (url : String) : String :=
  String.mk (lowerChars (stripTrailingSlashes (stripDotGit (stripGitScheme
    (stripHttpScheme (sshRewrite (trimChars url.data)))))))

/-! ## git.ts: worktree discovery

Subprocess results (`git worktree list --porcelain`, `git rev-parse
--show-toplevel`, the remote URL) and `path.resolve` are host inputs;
they enter as explicit arguments so the rest of the logic is pure. -/

/-- JS `split('\n')`: cut a character list at every separator; the
result always has one more piece than there are separators. -/
def splitOnChar (sep : Char) : List Char → List (List Char)
  | [] => [[]]
  | c :: rest =>
    if c = sep then [] :: splitOnChar sep rest
    else
      match splitOnChar sep rest with
      | [] => [[c]]
      | h :: t => (c :: h) :: t

/-- The line scan of `getWorktreeList`: keep `substring(9)` of every
stdout line starting with `"worktree "`. -/
def parseWorktreeLines (stdout : String) : List String :=
  (splitOnChar '\n' stdout.data).filterMap (fun line =>
    if "worktree ".data.isPrefixOf line then some (String.mk (line.drop 9)) else none)

/-- JS string `<=`: lexicographic comparison of UTF-16 code units, the
order `Array.prototype.sort` applies to string elements. -/
def lexLe : List Char → List Char → Bool
  | [], _ => true
  | _ :: _, [] => false
  | a :: as, b :: bs =>
    if a.toNat < b.toNat then true
    else if b.toNat < a.toNat then false
    else lexLe as bs

/-- Stable insertion step for `sortStrings`. -/
def orderedInsertStr (x : String) : List String → List String
  | [] => [x]
  | y :: ys => if lexLe x.data y.data then x :: y :: ys else y :: orderedInsertStr x ys

/-- JS `worktrees.sort()`: a stable sort under the code-unit order; a
stable structural insertion sort is extensionally the host's sort. -/
def sortStrings : List String → List String
  | [] => []
  | x :: xs => orderedInsertStr x (sortStrings xs)

/-- `getWorktreeList` from `src/git.ts`: parse the porcelain output and
sort alphabetically; a failed subprocess yields the empty list. -/
def getWorktreeList (worktreeStdout : Option String) : List String :=
  match worktreeStdout with
  | none => []
  | some out => sortStrings (parseWorktreeLines out)

/-- `getWorktreeIndex` from `src/git.ts`: position of the resolved
top-level path in the sorted worktree list, defaulting to 0 when the
list is empty, the top level is unavailable (or empty, which JS treats
as falsy), or no entry matches. -/
def getWorktreeIndex (worktreeStdout : Option String)
    (topLevel : Option String) (resolvePath : String → String) : ℕ :=
  let worktrees := getWorktreeList worktreeStdout
  if worktrees.length = 0 then 0
  else
    match topLevel with
    | none => 0
    | some tl =>
      if tl = "" then 0
      else
        let resolvedTopLevel := resolvePath tl
        match worktrees.findIdx? (fun wt => resolvePath wt == resolvedTopLevel) with
        | some index => index
        | none => 0

/-! ## git.ts: .git file parsing and getGitInfo -/

/-- `parseGitFile` from `src/git.ts`: the multiline regex
`^gitdir:\s*(.+)$` finds a line headed by `gitdir:` with at least one
further character; group 1 is then trimmed, which collapses the
leading-`\s*` handling into a plain `trim`. -/
def parseGitFile (content : String) : Option String :=
  (splitOnChar '\n' content.data).findSome? (fun line =>
    if "gitdir:".data.isPrefixOf line ∧ 7 < line.length
    then some (String.mk (trimChars (line.drop 7))) else none)

/-- Last occurrence split: `lastSplit sep l = some (b, a)` when
`l = b ++ sep ++ a` with `a ≠ []`, for the rightmost such occurrence.
This is the greedy group-1 semantics of `^(.+)\/\.git\/worktrees\/.+$`
up to the `b ≠ []` requirement, checked by the caller. -/
def lastSplit (sep : List Char) : List Char → Option (List Char × List Char)
  | [] => none
  | c :: rest =>
    match lastSplit sep rest with
    | some (b, a) => some (c :: b, a)
    | none =>
      if sep.isPrefixOf (c :: rest) then
        let a := (c :: rest).drop sep.length
        if a.isEmpty then none else some ([], a)
      else none

/-- The `worktreesMatch` extraction of `getGitInfo`: regex
`^(.+)\/\.git\/worktrees\/.+$` on the gitdir, yielding the main
repository path. -/
def extractMainPath (gitDir : String) : Option String :=
  match lastSplit "/.git/worktrees/".data gitDir.data with
  | some (b, _) => if b.isEmpty then none else some (String.mk b)
  | none => none

/-- Node `path.posix.basename`: drop trailing slashes, then take the
segment after the last remaining slash. -/
def jsBasename (s : String) : String :=
  String.mk (((s.data.reverse.dropWhile (fun c => c = '/')).takeWhile
    (fun c => c ≠ '/')).reverse)

/-- `GitInfo` from `src/git.ts`. -/
structure GitInfo where
  repoIdentifier : String
  isWorktree : Bool
  mainWorktreePath : Option String
  gitDir : String
  worktreeIndex : ℕ

/-- The host-supplied inputs `getGitInfo` consumes: filesystem probes of
the `.git` entry, the trimmed stdout of each git subprocess (`none` on
failure), and `path.resolve` as oracles. -/
structure GitEnv where
  workspacePath : String
  gitPathExists : Bool
  gitPathIsFile : Bool
  gitFileContent : String
  remoteUrl : Option String
  topLevel : Option String
  worktreeStdout : Option String
  resolveRel : String → String → String
  resolvePath : String → String

/-- `getGitInfo` from `src/git.ts` as a pure function of `GitEnv`.
`path.isAbsolute` is the POSIX leading-slash test; `!parsedGitDir` and
`remoteUrl` truthiness treat the empty string as absent. -/
def getGitInfo (env : GitEnv) : Option GitInfo :=
  let gitPath := env.workspacePath ++ "/.git"
  if !env.gitPathExists then none
  else
    let entry : Option (Bool × Option String × String) :=
      if env.gitPathIsFile then
        match parseGitFile env.gitFileContent with
        | none => none
        | some parsedGitDir =>
          if parsedGitDir = "" then none
          else
            let gitDir :=
              if "/".data.isPrefixOf parsedGitDir.data then parsedGitDir
              else env.resolveRel env.workspacePath parsedGitDir
            some (true, extractMainPath gitDir, gitDir)
      else some (false, none, gitPath)
    match entry with
    | none => none
    | some (isWorktree, mainWorktreePath, gitDir) =>
      let repoIdentifier :=
        match env.remoteUrl with
        | some u =>
          if u = "" then jsBasename (env.topLevel.getD env.workspacePath)
          else normalizeGitUrl u
        | none => jsBasename (env.topLevel.getD env.workspacePath)
      some { repoIdentifier := repoIdentifier,
             isWorktree := isWorktree,
             mainWorktreePath := mainWorktreePath,
             gitDir := gitDir,
             worktreeIndex :=
               getWorktreeIndex env.worktreeStdout env.topLevel env.resolvePath }

/-! ## extension.ts: applyWorktreeColors

Two shipped variants are embedded: the earlier one gates on
`worktreeIndex === 0`, the later one on `!gitInfo.isWorktree`. The
result records the returned `\x7bapplied, message\x7d`, the configuration
store after the call, and whether any configuration update ran. -/

/-- Outcome of one `applyWorktreeColors` call against a store. -/
structure ApplyResult where
  applied : Bool
  message : String
  store : Option Obj
  wrote : Bool

/-- Earlier `applyWorktreeColors` (`src/extension.ts`): resolve git info
for the first workspace folder and skip unless `worktreeIndex ≠ 0`. -/
def applyWorktreeColorsV1 (workspacePath : Option String) (env : GitEnv)
    (config : ColorConfig) (foreground : String)
    (store : Option Obj) : ApplyResult :=
  match workspacePath with
  | none => ⟨false, "No workspace folder open", store, false⟩
  | some _ =>
    match getGitInfo env with
    | none => ⟨false, "Not a git repository", store, false⟩
    | some gitInfo =>
      if gitInfo.worktreeIndex = 0 then
        ⟨false, "Skipping root worktree (no color applied)", store, false⟩
      else
        let color := generateColor gitInfo.repoIdentifier gitInfo.worktreeIndex config
        ⟨true,
         "Applied color " ++ color ++ " for worktree (index "
           ++ toString gitInfo.worktreeIndex ++ ")",
         applyColors store color foreground config, true⟩

/-- `detectionMode` setting of the later extension variant. -/
inductive DetectionMode where
  | auto
  | workspaceFileOnly
  | firstWorkspaceFolder
deriving DecidableEq

/-- `detectWorktreeGitInfo` from the later extension variant; the git
resolutions for the workspace file and for the first folder are host
inputs. -/
def detectWorktreeGitInfo (mode : DetectionMode)
    (workspaceFilePath : Option String) (workspaceFileGitInfo : Option GitInfo)
    (firstFolderPath : Option String) (firstFolderGitInfo : Option GitInfo) :
    Option GitInfo :=
  match mode with
  | .firstWorkspaceFolder =>
    match firstFolderPath with
    | some _ => firstFolderGitInfo
    | none => none
  | _ =>
    match workspaceFilePath, workspaceFileGitInfo with
    | some _, some gi => some gi
    | _, _ =>
      if mode = .workspaceFileOnly then none
      else
        match firstFolderPath with
        | some _ => firstFolderGitInfo
        | none => none

/-- Later `applyWorktreeColors`: honour `respectExistingColors` (the
`hasExistingManagedColors()` probe of the live store is a host input),
resolve via `detectWorktreeGitInfo`, and skip unless the context is a
worktree. -/
def applyWorktreeColorsV2 (firstFolderPath : Option String)
    (respectExistingColors hasExistingManaged : Bool) (mode : DetectionMode)
    (workspaceFilePath : Option String)
    (workspaceFileGitInfo firstFolderGitInfo : Option GitInfo)
    (config : ColorConfig) (foreground : String)
    (store : Option Obj) : ApplyResult :=
  match firstFolderPath with
  | none => ⟨false, "No workspace folder open", store, false⟩
  | some _ =>
    if respectExistingColors && hasExistingManaged then
      ⟨false, "Existing color customizations found (not overriding)", store, false⟩
    else
      match detectWorktreeGitInfo mode workspaceFilePath workspaceFileGitInfo
          firstFolderPath firstFolderGitInfo with
      | none =>
        ⟨false, "Not a git repository or workspace file not in worktree", store, false⟩
      | some gitInfo =>
        if !gitInfo.isWorktree then
          ⟨false, "Skipping main repository (no color applied)", store, false⟩
        else
          let color := generateColor gitInfo.repoIdentifier gitInfo.worktreeIndex config
          ⟨true,
           "Applied color " ++ color ++ " for worktree (index "
             ++ toString gitInfo.worktreeIndex ++ ")",
           applyColors store color foreground config, true⟩

/-! ## Theorems: color engine -/

theorem toInt32_emod (x : ℤ) : toInt32 x % 4294967296 = x % 4294967296 := by
  unfold toInt32
  dsimp only
  split <;> omega

theorem toInt32_congr {x y : ℤ} (h : x % 4294967296 = y % 4294967296) :
    toInt32 x = toInt32 y := by
  unfold toInt32
  dsimp only
  rw [h]

theorem hueStep_eq_rolling (h : ℤ) (c : Char) :
    hueStep h c = toInt32 (h * 31 + (c.toNat : ℤ)) := by
  unfold hueStep
  apply toInt32_congr
  have h1 := toInt32_emod (h * 32)
  omega

/-- The hue computation as the spec words it (§4.3): rolling hash
`hash = hash*31 + charCode`, wrapped to a 32-bit signed integer, reduced
modulo 360 and forced non-negative. Stated separately so the source's
`(hash << 5) - hash` form can be compared against it. -/
def specStringToHue (s : String) : ℕ :=
  (s.data.foldl (fun h c => toInt32 (h * 31 + (c.toNat : ℤ))) 0).natAbs % 360

/-- C7: for every string, `stringToHue` lands in `[0,360)` (the result
type is `ℕ`, so non-negativity is inherent) and agrees with the spec's
`hash*31 + charCode` rolling hash wrapped to 32-bit signed; as a pure
function of its argument it is deterministic across calls. -/
theorem stringToHue_range_and_rolling (s : String) :
    stringToHue s < 360 ∧ stringToHue s = specStringToHue s := by
  constructor
  · exact Nat.mod_lt _ (by norm_num)
  · unfold stringToHue specStringToHue
    congr 2
    exact List.foldl_ext _ _ _ (fun a b _ => hueStep_eq_rolling a b)

/-- C8: landmark HSL→hex conversions, and hue 360 behaves exactly like
hue 0 for every saturation and lightness. -/
theorem hslToHex_landmarks_and_wraparound :
    hslToHex 0 100 50 = "#ff0000" ∧ hslToHex 120 100 50 = "#00ff00" ∧
    hslToHex 240 100 50 = "#0000ff" ∧ hslToHex 0 0 50 = "#808080" ∧
    ∀ s l : ℚ, hslToHex 360 s l = hslToHex 0 s l := by
  refine ⟨?_, ?_, ?_, ?_, ?_⟩
  · norm_num [hslToHex, jsMod, jsTrunc, toHexComp, jsRound, intHexRepr, natHexRepr]
    decide
  · norm_num [hslToHex, jsMod, jsTrunc, toHexComp, jsRound, intHexRepr, natHexRepr]
    decide
  · norm_num [hslToHex, jsMod, jsTrunc, toHexComp, jsRound, intHexRepr, natHexRepr]
    decide
  · norm_num [hslToHex, jsMod, jsTrunc, toHexComp, jsRound, intHexRepr, natHexRepr]
    decide
  · intro s l
    norm_num [hslToHex, jsMod, jsTrunc]

/-- C3: for fixed repository identifier and settings, `generateColor`
feeds the constant hue `stringToHue id` into the conversion at every
worktree index; the lightness `min (base + k·step) 65` is non-decreasing
in `k` (for the non-negative steps of the settings surface), never
exceeds 65, and with base 25 and step 5 gives 25 at index 0 and 35 at
index 2. -/
theorem generateColor_constant_hue_monotone_lightness (id : String) (cfg : ColorConfig) :
    (∀ k : ℕ, generateColor id k cfg =
        hslToHex (stringToHue id : ℚ) cfg.saturation
          (min (cfg.baseLightness + (k : ℚ) * cfg.worktreeLightnessStep) 65))
    ∧ (0 ≤ cfg.worktreeLightnessStep → ∀ k₁ k₂ : ℕ, k₁ ≤ k₂ →
        min (cfg.baseLightness + (k₁ : ℚ) * cfg.worktreeLightnessStep) 65 ≤
          min (cfg.baseLightness + (k₂ : ℚ) * cfg.worktreeLightnessStep) 65)
    ∧ (∀ k : ℕ, min (cfg.baseLightness + (k : ℚ) * cfg.worktreeLightnessStep) 65 ≤ 65)
    ∧ (cfg.baseLightness = 25 → cfg.worktreeLightnessStep = 5 →
        min (cfg.baseLightness + (0 : ℚ) * cfg.worktreeLightnessStep) 65 = 25 ∧
          min (cfg.baseLightness + (2 : ℚ) * cfg.worktreeLightnessStep) 65 = 35) := by
  refine ⟨fun k => rfl, ?_, fun k => min_le_right _ _, ?_⟩
  · intro hstep k₁ k₂ hk
    apply min_le_min _ le_rfl
    have : (k₁ : ℚ) ≤ (k₂ : ℚ) := by exact_mod_cast hk
    nlinarith
  · intro hbase hstepval
    rw [hbase, hstepval]
    constructor <;> norm_num

/-- Witness for C3 at the spec's scenario settings (base 25, step 5):
monotonicity applies between indices 0 and 2, and the concrete
lightness values come out as 25 and 35. -/
theorem generateColor_lightness_witness :
    (min ((25 : ℚ) + ((0 : ℕ) : ℚ) * 5) 65 ≤ min ((25 : ℚ) + ((2 : ℕ) : ℚ) * 5) 65) ∧
    min ((25 : ℚ) + (0 : ℚ) * 5) 65 = 25 ∧ min ((25 : ℚ) + (2 : ℚ) * 5) 65 = 35 :=
  ⟨(generateColor_constant_hue_monotone_lightness "github.com/acme/widgets"
      ⟨30, 25, 5, true, true, true⟩).2.1 (by norm_num) 0 2 (by norm_num),
   (generateColor_constant_hue_monotone_lightness "github.com/acme/widgets"
      ⟨30, 25, 5, true, true, true⟩).2.2.2 rfl rfl⟩

/-! ## Theorems: configuration overlay (applyColors / resetColors) -/

theorem mem_buildColorCustomizations {b f : String} {cfg : ColorConfig}
    {p : String × String} (hp : p ∈ buildColorCustomizations b f cfg) :
    p.1 ∈ MANAGED_COLOR_KEYS := by
  unfold buildColorCustomizations at hp
  rcases List.mem_append.1 hp with h | h
  · rcases List.mem_append.1 h with h | h
    · split at h
      · fin_cases h <;> simp [MANAGED_COLOR_KEYS]
      · exact absurd h (List.not_mem_nil _)
    · split at h
      · fin_cases h <;> simp [MANAGED_COLOR_KEYS]
      · exact absurd h (List.not_mem_nil _)
  · split at h
    · fin_cases h <;> simp [MANAGED_COLOR_KEYS]
    · exact absurd h (List.not_mem_nil _)

theorem objGet_cons (p : String × String) (l : Obj) (k : String) :
    objGet (p :: l) k = if p.1 = k then some p.2 else objGet l k := by
  by_cases h : p.1 = k
  · rw [if_pos h]
    unfold objGet
    rw [List.find?_cons_of_pos _ (by simpa using h)]
    rfl
  · rw [if_neg h]
    unfold objGet
    rw [List.find?_cons_of_neg _ (by simpa using h)]

theorem objGet_append (a b : Obj) (k : String) :
    objGet (a ++ b) k = (objGet a k).or (objGet b k) := by
  unfold objGet
  rw [List.find?_append]
  cases a.find? (fun p => p.1 == k) <;> simp

theorem objGet_managed_none {colors : Obj} {k : String}
    (hcolors : ∀ p ∈ colors, p.1 ∈ MANAGED_COLOR_KEYS) (hk : k ∉ MANAGED_COLOR_KEYS) :
    objGet colors k = none := by
  unfold objGet
  rw [List.find?_eq_none.2, Option.map_none']
  intro p hp hbeq
  exact hk ((beq_iff_eq.mp hbeq) ▸ hcolors p hp)

theorem overrideEntry_fst (colors : Obj) (p : String × String) :
    (match objGet colors p.1 with | some v => (p.1, v) | none => p).1 = p.1 := by
  cases objGet colors p.1 <;> rfl

theorem objGet_map_override (a colors : Obj) (k : String)
    (hnone : objGet colors k = none) :
    objGet (a.map (fun p => match objGet colors p.1 with
      | some v => (p.1, v) | none => p)) k = objGet a k := by
  induction a with
  | nil => rfl
  | cons p a ih =>
    rw [List.map_cons, objGet_cons, objGet_cons, overrideEntry_fst]
    by_cases h : p.1 = k
    · rw [if_pos h, if_pos h]
      have hp : objGet colors p.1 = none := by rw [h]; exact hnone
      simp only [hp]
    · rw [if_neg h, if_neg h, ih]

theorem objGet_merge_unmanaged {a colors : Obj} {k : String}
    (hcolors : ∀ p ∈ colors, p.1 ∈ MANAGED_COLOR_KEYS) (hk : k ∉ MANAGED_COLOR_KEYS) :
    objGet (objMerge a colors) k = objGet a k := by
  unfold objMerge
  rw [objGet_append, objGet_map_override a colors k (objGet_managed_none hcolors hk)]
  have hfilter : objGet (colors.filter (fun p => (objGet a p.1).isNone)) k = none := by
    apply objGet_managed_none _ hk
    intro p hp
    exact hcolors p (List.mem_of_mem_filter hp)
  rw [hfilter]
  cases objGet a k <;> rfl

theorem objGet_filter_unmanaged {l : Obj} {k : String} (hk : k ∉ MANAGED_COLOR_KEYS) :
    objGet (l.filter (fun p => !(MANAGED_COLOR_KEYS.contains p.1))) k = objGet l k := by
  induction l with
  | nil => rfl
  | cons p l ih =>
    rw [List.filter_cons]
    cases hcb : MANAGED_COLOR_KEYS.contains p.1 with
    | true =>
      have hm : p.1 ∈ MANAGED_COLOR_KEYS := List.elem_iff.mp hcb
      rw [if_neg (by simp [hcb]), objGet_cons,
        if_neg (fun hEq : p.1 = k => hk (hEq ▸ hm)), ih]
    | false =>
      rw [if_pos (by simp [hcb]), objGet_cons, objGet_cons, ih]

theorem fst_mem_objMerge {a b : Obj} {p : String × String} (hp : p ∈ objMerge a b) :
    p.1 ∈ a.map Prod.fst ∨ p ∈ b := by
  unfold objMerge at hp
  rcases List.mem_append.1 hp with h | h
  · left
    rcases List.mem_map.1 h with ⟨q, hq, hqp⟩
    rw [← hqp, overrideEntry_fst]
    exact List.mem_map.2 ⟨q, hq, rfl⟩
  · right
    exact List.mem_of_mem_filter h

/-- Lookup into a possibly-absent configuration object. -/
def optGet (store : Option Obj) (k : String) : Option String :=
  match store with
  | none => none
  | some l => objGet l k

/-- C2: `applyColors` writes only managed keys and `resetColors` deletes
only managed keys — at every key outside `MANAGED_COLOR_KEYS`, both
operations leave the configuration value (present or absent) exactly as
it was, for every prior store, color, foreground and settings. -/
theorem managed_key_frame (store : Option Obj) (b f : String) (cfg : ColorConfig)
    (k : String) (hk : k ∉ MANAGED_COLOR_KEYS) :
    optGet (applyColors store b f cfg) k = optGet store k ∧
    optGet (resetColors store) k = optGet store k := by
  have hbuild : ∀ p ∈ buildColorCustomizations b f cfg, p.1 ∈ MANAGED_COLOR_KEYS :=
    fun _ hp => mem_buildColorCustomizations hp
  constructor
  · cases store with
    | none =>
      show objGet (objMerge [] _) k = none
      rw [objGet_merge_unmanaged hbuild hk]
      rfl
    | some l =>
      show objGet (objMerge l _) k = objGet l k
      exact objGet_merge_unmanaged hbuild hk
  · cases store with
    | none => rfl
    | some l =>
      show optGet (resetColors (some l)) k = objGet l k
      unfold resetColors
      dsimp only [Option.getD]
      by_cases hlen : 0 < (l.filter (fun p => !(MANAGED_COLOR_KEYS.contains p.1))).length
      · rw [if_pos hlen]
        exact objGet_filter_unmanaged hk
      · rw [if_neg hlen]
        have hempty : l.filter (fun p => !(MANAGED_COLOR_KEYS.contains p.1)) = [] := by
          cases hfe : l.filter (fun p => !(MANAGED_COLOR_KEYS.contains p.1)) with
          | nil => rfl
          | cons q t => rw [hfe] at hlen; simp at hlen
        have hframe := objGet_filter_unmanaged (l := l) (k := k) hk
        rw [hempty] at hframe
        exact hframe

/-- Witness for C2 at a concrete unmanaged key and store. -/
theorem managed_key_frame_witness :
    ("editor.background" ∉ MANAGED_COLOR_KEYS) ∧
    (optGet (applyColors (some [("editor.background", "#111111")]) "#aabbcc" "#e0e0e0"
        ⟨30, 25, 5, true, true, true⟩) "editor.background" =
      optGet (some [("editor.background", "#111111")]) "editor.background" ∧
     optGet (resetColors (some [("editor.background", "#111111")])) "editor.background" =
      optGet (some [("editor.background", "#111111")]) "editor.background") :=
  ⟨by decide,
   managed_key_frame (some [("editor.background", "#111111")]) "#aabbcc" "#e0e0e0"
     ⟨30, 25, 5, true, true, true⟩ "editor.background" (by decide)⟩

/-- C1 counterexample: with a prior configuration holding a user value
under the managed key `titleBar.activeBackground`, `applyColors`
followed by `resetColors` clears the setting entirely (there is no
snapshot), so the result is not deep-equal to the pre-apply object —
the user's value is gone. -/
theorem applyReset_loses_user_managed_value :
    ¬ optObjEquiv (some [("titleBar.activeBackground", "#123456")])
      (resetColors (applyColors (some [("titleBar.activeBackground", "#123456")])
        "#aabbcc" "#e0e0e0" ⟨30, 25, 5, true, true, true⟩)) := by
  intro hEq
  have hkeys : ∀ p ∈ objMerge [("titleBar.activeBackground", "#123456")]
      (buildColorCustomizations "#aabbcc" "#e0e0e0" ⟨30, 25, 5, true, true, true⟩),
      p.1 ∈ MANAGED_COLOR_KEYS := by
    intro p hp
    rcases fst_mem_objMerge hp with h | h
    · simp only [List.map_cons, List.map_nil, List.mem_cons, List.not_mem_nil,
        or_false] at h
      rw [h]
      decide
    · exact mem_buildColorCustomizations h
  have hnone : resetColors (applyColors (some [("titleBar.activeBackground", "#123456")])
      "#aabbcc" "#e0e0e0" ⟨30, 25, 5, true, true, true⟩) = none := by
    unfold applyColors resetColors
    dsimp only [Option.getD]
    have hnil : (objMerge [("titleBar.activeBackground", "#123456")]
        (buildColorCustomizations "#aabbcc" "#e0e0e0" ⟨30, 25, 5, true, true, true⟩)).filter
        (fun p => !(MANAGED_COLOR_KEYS.contains p.1)) = [] := by
      rw [List.filter_eq_nil_iff]
      intro p hp
      simp [List.elem_iff, hkeys p hp]
    rw [hnil]
    simp
  rw [hnone] at hEq
  exact hEq

/-- C1 (amended): when the prior configuration is absent, or holds no
managed key and at least one unrelated entry, `applyColors` followed by
`resetColors` restores it exactly (unrelated keys survive untouched and
an absent object stays absent). When a managed key held a user value
before apply, `resetColors` deletes it instead of restoring it. -/
theorem applyColors_resetColors_roundtrip (store : Option Obj) (b f : String)
    (cfg : ColorConfig)
    (h : ∀ l, store = some l → (∀ p ∈ l, p.1 ∉ MANAGED_COLOR_KEYS) ∧ l ≠ []) :
    resetColors (applyColors store b f cfg) = store := by
  have hbuild : ∀ p ∈ buildColorCustomizations b f cfg, p.1 ∈ MANAGED_COLOR_KEYS :=
    fun _ hp => mem_buildColorCustomizations hp
  cases store with
  | none =>
    unfold applyColors resetColors
    dsimp only [Option.getD]
    have hnil : (objMerge [] (buildColorCustomizations b f cfg)).filter
        (fun p => !(MANAGED_COLOR_KEYS.contains p.1)) = [] := by
      rw [List.filter_eq_nil_iff]
      intro p hp
      have hmem : p.1 ∈ MANAGED_COLOR_KEYS := by
        apply hbuild
        unfold objMerge at hp
        simp only [List.map_nil, List.nil_append] at hp
        exact List.mem_of_mem_filter hp
      simp [List.elem_iff, hmem]
    rw [hnil]
    simp
  | some l =>
    obtain ⟨hunm, hne⟩ := h l rfl
    unfold applyColors resetColors
    dsimp only [Option.getD]
    have hmap : (l.map (fun p => match objGet (buildColorCustomizations b f cfg) p.1 with
        | some v => (p.1, v) | none => p)) = l := by
      have hfix : ∀ p ∈ l, (fun p => match objGet (buildColorCustomizations b f cfg) p.1 with
          | some v => (p.1, v) | none => p) p = id p := by
        intro p hp
        have hn : objGet (buildColorCustomizations b f cfg) p.1 = none :=
          objGet_managed_none hbuild (hunm p hp)
        simp only [hn, id]
      rw [List.map_congr_left hfix, List.map_id]
    have hfiltered : (objMerge l (buildColorCustomizations b f cfg)).filter
        (fun p => !(MANAGED_COLOR_KEYS.contains p.1)) = l := by
      unfold objMerge
      rw [hmap, List.filter_append]
      have h1 : l.filter (fun p => !(MANAGED_COLOR_KEYS.contains p.1)) = l := by
        rw [List.filter_eq_self]
        intro p hp
        simp [List.elem_iff, hunm p hp]
      have h2 : ((buildColorCustomizations b f cfg).filter
          (fun p => (objGet l p.1).isNone)).filter
          (fun p => !(MANAGED_COLOR_KEYS.contains p.1)) = [] := by
        rw [List.filter_eq_nil_iff]
        intro p hp
        simp [List.elem_iff, hbuild p (List.mem_of_mem_filter hp)]
      rw [h1, h2, List.append_nil]
    rw [hfiltered, if_pos (List.length_pos.2 hne)]

/-- Witness for the amended C1: a store holding only the unrelated key
`editor.background` survives an apply/reset pair unchanged. -/
theorem applyColors_resetColors_roundtrip_witness :
    (∀ l, (some [("editor.background", "#111111")] : Option Obj) = some l →
      (∀ p ∈ l, p.1 ∉ MANAGED_COLOR_KEYS) ∧ l ≠ []) ∧
    resetColors (applyColors (some [("editor.background", "#111111")])
      "#aabbcc" "#e0e0e0" ⟨30, 25, 5, true, true, true⟩) =
      some [("editor.background", "#111111")] :=
  ⟨by rintro l hl; cases hl; exact ⟨by decide, by decide⟩,
   applyColors_resetColors_roundtrip (some [("editor.background", "#111111")])
     "#aabbcc" "#e0e0e0" ⟨30, 25, 5, true, true, true⟩
     (by rintro l hl; cases hl; exact ⟨by decide, by decide⟩)⟩

/-! ## Theorems: normalizeGitUrl -/

theorem dropWhile_ws_eq_self {l : List Char} (h : ∀ c ∈ l, ¬ c.isWhitespace) :
    l.dropWhile Char.isWhitespace = l := by
  cases l with
  | nil => rfl
  | cons c t => exact List.dropWhile_cons_of_neg (h c (List.mem_cons_self c t))

theorem trimChars_eq_self {l : List Char} (h : ∀ c ∈ l, ¬ c.isWhitespace) :
    trimChars l = l := by
  unfold trimChars
  rw [dropWhile_ws_eq_self h, dropWhile_ws_eq_self
    (fun c hc => h c (List.mem_reverse.1 hc)), List.reverse_reverse]

theorem splitFirst_append {H P : List Char} (h : ':' ∉ H) :
    splitFirst ':' (H ++ ':' :: P) = some (H, P) := by
  induction H with
  | nil => simp [splitFirst]
  | cons c t ih =>
    have hc : c ≠ ':' := fun hEq => h (hEq ▸ List.mem_cons_self c t)
    have ht : ':' ∉ t := fun hm => h (List.mem_cons_of_mem c hm)
    simp only [List.cons_append, splitFirst, if_neg (fun hEq : c = ':' => hc hEq),
      List.append_eq]
    rw [ih ht]

theorem sshRewrite_scp {H P : List Char} (hH : H ≠ []) (hP : P ≠ [])
    (hcolon : ':' ∉ H) :
    sshRewrite ('g' :: 'i' :: 't' :: '@' :: (H ++ ':' :: P)) = H ++ '/' :: P := by
  unfold sshRewrite
  rw [if_pos (by simp [List.isPrefixOf])]
  simp only [List.drop_succ_cons, List.drop_zero]
  rw [splitFirst_append hcolon]
  simp [hH, hP]

theorem sshRewrite_fix_of_ne {c : Char} (l : List Char) (h : c ≠ 'g') :
    sshRewrite (c :: l) = c :: l := by
  unfold sshRewrite
  rw [if_neg]
  simp [List.isPrefixOf, beq_iff_eq]
  intro hEq
  exact absurd hEq.symm h

theorem https_not_head {H P : List Char} (hc : ':' ∉ H) :
    "https://".data.isPrefixOf (H ++ '/' :: P) = false := by
  show ['h', 't', 't', 'p', 's', ':', '/', '/'].isPrefixOf (H ++ '/' :: P) = false
  rcases H with _ | ⟨a, _ | ⟨b, _ | ⟨c, _ | ⟨d, _ | ⟨e, _ | ⟨f, t⟩⟩⟩⟩⟩⟩
  · simp [List.isPrefixOf]
  · simp [List.isPrefixOf]
  · simp [List.isPrefixOf]
  · simp [List.isPrefixOf]
  · simp [List.isPrefixOf]
  · simp [List.isPrefixOf]
  · rw [Bool.eq_false_iff]
    intro htrue
    simp only [List.cons_append, List.isPrefixOf, Bool.and_eq_true, beq_iff_eq] at htrue
    obtain ⟨-, -, -, -, -, h6, -⟩ := htrue
    subst h6
    apply hc
    simp

theorem http_not_head {H P : List Char} (hc : ':' ∉ H) :
    "http://".data.isPrefixOf (H ++ '/' :: P) = false := by
  show ['h', 't', 't', 'p', ':', '/', '/'].isPrefixOf (H ++ '/' :: P) = false
  rcases H with _ | ⟨a, _ | ⟨b, _ | ⟨c, _ | ⟨d, _ | ⟨e, t⟩⟩⟩⟩⟩
  · simp [List.isPrefixOf]
  · simp [List.isPrefixOf]
  · simp [List.isPrefixOf]
  · simp [List.isPrefixOf]
  · simp [List.isPrefixOf]
  · rw [Bool.eq_false_iff]
    intro htrue
    simp only [List.cons_append, List.isPrefixOf, Bool.and_eq_true, beq_iff_eq] at htrue
    obtain ⟨-, -, -, -, h5, -⟩ := htrue
    subst h5
    apply hc
    simp

theorem git_not_head {H P : List Char} (hc : ':' ∉ H) :
    "git://".data.isPrefixOf (H ++ '/' :: P) = false := by
  show ['g', 'i', 't', ':', '/', '/'].isPrefixOf (H ++ '/' :: P) = false
  rcases H with _ | ⟨a, _ | ⟨b, _ | ⟨c, _ | ⟨d, t⟩⟩⟩⟩
  · simp [List.isPrefixOf]
  · simp [List.isPrefixOf]
  · simp [List.isPrefixOf]
  · simp [List.isPrefixOf]
  · rw [Bool.eq_false_iff]
    intro htrue
    simp only [List.cons_append, List.isPrefixOf, Bool.and_eq_true, beq_iff_eq] at htrue
    obtain ⟨-, -, -, h4, -⟩ := htrue
    subst h4
    apply hc
    simp

theorem stripHttpScheme_fix {H P : List Char} (hc : ':' ∉ H) :
    stripHttpScheme (H ++ '/' :: P) = H ++ '/' :: P := by
  unfold stripHttpScheme
  rw [if_neg (by rw [https_not_head hc]; exact Bool.false_ne_true),
    if_neg (by rw [http_not_head hc]; exact Bool.false_ne_true)]

theorem stripGitScheme_fix {H P : List Char} (hc : ':' ∉ H) :
    stripGitScheme (H ++ '/' :: P) = H ++ '/' :: P := by
  unfold stripGitScheme dropHead
  rw [if_neg (by rw [git_not_head hc]; exact Bool.false_ne_true)]

theorem stripHttpScheme_https (l : List Char) :
    stripHttpScheme ('h' :: 't' :: 't' :: 'p' :: 's' :: ':' :: '/' :: '/' :: l) = l := by
  unfold stripHttpScheme
  rw [if_pos (by simp [List.isPrefixOf])]
  rfl

theorem normalizeGitUrl_scp_eq_https (host path : String)
    (hH : host.data ≠ []) (hP : path.data ≠ []) (hcolon : ':' ∉ host.data)
    (hHw : ∀ c ∈ host.data, ¬ c.isWhitespace)
    (hPw : ∀ c ∈ path.data, ¬ c.isWhitespace) :
    normalizeGitUrl ("git@" ++ host ++ ":" ++ path) =
      normalizeGitUrl ("https://" ++ host ++ "/" ++ path) := by
  have hdataL : ("git@" ++ host ++ ":" ++ path).data
      = 'g' :: 'i' :: 't' :: '@' :: (host.data ++ ':' :: path.data) := by
    simp [show ("git@" : String).data = ['g', 'i', 't', '@'] from rfl,
      show (":" : String).data = [':'] from rfl]
  have hdataR : ("https://" ++ host ++ "/" ++ path).data
      = 'h' :: 't' :: 't' :: 'p' :: 's' :: ':' :: '/' :: '/' ::
          (host.data ++ '/' :: path.data) := by
    simp [show ("https://" : String).data = ['h', 't', 't', 'p', 's', ':', '/', '/'] from rfl,
      show ("/" : String).data = ['/'] from rfl]
  have hwsL : ∀ c ∈ 'g' :: 'i' :: 't' :: '@' :: (host.data ++ ':' :: path.data),
      ¬ c.isWhitespace := by
    intro c hcm
    simp only [List.mem_cons, List.mem_append] at hcm
    rcases hcm with rfl | rfl | rfl | rfl | hm | rfl | hm
    · decide
    · decide
    · decide
    · decide
    · exact hHw c hm
    · decide
    · exact hPw c hm
  have hwsR : ∀ c ∈ 'h' :: 't' :: 't' :: 'p' :: 's' :: ':' :: '/' :: '/' ::
      (host.data ++ '/' :: path.data), ¬ c.isWhitespace := by
    intro c hcm
    simp only [List.mem_cons, List.mem_append] at hcm
    rcases hcm with rfl | rfl | rfl | rfl | rfl | rfl | rfl | rfl | hm | rfl | hm
    · decide
    · decide
    · decide
    · decide
    · decide
    · decide
    · decide
    · decide
    · exact hHw c hm
    · decide
    · exact hPw c hm
  unfold normalizeGitUrl
  rw [hdataL, hdataR, trimChars_eq_self hwsL, trimChars_eq_self hwsR,
    sshRewrite_scp hH hP hcolon, sshRewrite_fix_of_ne _ (by decide),
    stripHttpScheme_fix hcolon, stripHttpScheme_https]

/-- C4: the SSH form and the HTTPS form of the same repository URL
normalize to the same identifier — concretely both GitHub test forms
give `github.com/user/repo`, and in general `git@host:path` and
`https://host/path` agree for every host (non-empty, colon-free) and
non-empty path without surrounding whitespace. -/
theorem normalizeGitUrl_ssh_https_agree :
    (normalizeGitUrl "git@github.com:user/repo.git" = "github.com/user/repo" ∧
     normalizeGitUrl "https://github.com/user/repo.git" = "github.com/user/repo") ∧
    ∀ host path : String, host.data ≠ [] → path.data ≠ [] → ':' ∉ host.data →
      (∀ c ∈ host.data, ¬ c.isWhitespace) → (∀ c ∈ path.data, ¬ c.isWhitespace) →
      normalizeGitUrl ("git@" ++ host ++ ":" ++ path) =
        normalizeGitUrl ("https://" ++ host ++ "/" ++ path) :=
  ⟨⟨by decide, by decide⟩,
   fun host path hH hP hc hHw hPw =>
     normalizeGitUrl_scp_eq_https host path hH hP hc hHw hPw⟩

/-- Witness for C4's general clause at the GitHub test pair. -/
theorem normalizeGitUrl_ssh_https_witness :
    normalizeGitUrl ("git@" ++ "github.com" ++ ":" ++ "user/repo.git") =
      normalizeGitUrl ("https://" ++ "github.com" ++ "/" ++ "user/repo.git") :=
  normalizeGitUrl_ssh_https_agree.2 "github.com" "user/repo.git"
    (by decide) (by decide) (by decide) (by decide) (by decide)

theorem sshRewrite_fix_of_not {l : List Char}
    (h : ("git@".data.isPrefixOf l) = false) : sshRewrite l = l := by
  unfold sshRewrite
  rw [if_neg (by rw [h]; exact Bool.false_ne_true)]

theorem stripHttpScheme_fix_of_not {l : List Char}
    (h1 : ("https://".data.isPrefixOf l) = false)
    (h2 : ("http://".data.isPrefixOf l) = false) : stripHttpScheme l = l := by
  unfold stripHttpScheme
  rw [if_neg (by rw [h1]; exact Bool.false_ne_true),
    if_neg (by rw [h2]; exact Bool.false_ne_true)]

theorem stripGitScheme_fix_of_not {l : List Char}
    (h : ("git://".data.isPrefixOf l) = false) : stripGitScheme l = l := by
  unfold stripGitScheme dropHead
  rw [if_neg (by rw [h]; exact Bool.false_ne_true)]

theorem stripDotGit_fix_of_not {l : List Char}
    (h : (".git".data.isSuffixOf l) = false) : stripDotGit l = l := by
  unfold stripDotGit
  rw [if_neg (by rw [h]; exact Bool.false_ne_true)]

theorem stripTrailingSlashes_fix {l : List Char} (h : l.getLast? ≠ some '/') :
    stripTrailingSlashes l = l := by
  unfold stripTrailingSlashes
  cases hrev : l.reverse with
  | nil =>
    have : l = [] := by simpa using congrArg List.reverse hrev
    rw [this]
    rfl
  | cons c t =>
    have hc : c ≠ '/' := by
      intro hEq
      apply h
      rw [← List.head?_reverse, hrev, hEq]
      rfl
    rw [List.dropWhile_cons_of_neg (by simpa using hc), ← hrev, List.reverse_reverse]

theorem lowerChars_fix {l : List Char} (h : ∀ c ∈ l, c.toLower = c) :
    lowerChars l = l := by
  unfold lowerChars
  rw [List.map_congr_left (fun c hc => h c hc), List.map_id']

/-- C9 (amended): `normalizeGitUrl` is idempotent on every url whose
normalized form is a fixed point of each transform — it contains no
whitespace and no character changed by lowercasing, does not start with
`git@`, `https://`, `http://` or `git://`, and does not end with `.git`
or `/`. Idempotence fails in general because each regex runs once and
case-sensitively before the final lowercase: `"A.GIT"` normalizes to
`"a.git"`, which renormalizes to `"a"`. -/
theorem normalizeGitUrl_idempotent_of_stable (url : String)
    (h1 : ∀ c ∈ (normalizeGitUrl url).data, ¬ c.isWhitespace)
    (h2 : ("git@".data.isPrefixOf (normalizeGitUrl url).data) = false)
    (h3 : ("https://".data.isPrefixOf (normalizeGitUrl url).data) = false)
    (h4 : ("http://".data.isPrefixOf (normalizeGitUrl url).data) = false)
    (h5 : ("git://".data.isPrefixOf (normalizeGitUrl url).data) = false)
    (h6 : ((".git").data.isSuffixOf (normalizeGitUrl url).data) = false)
    (h7 : (normalizeGitUrl url).data.getLast? ≠ some '/')
    (h8 : ∀ c ∈ (normalizeGitUrl url).data, c.toLower = c) :
    normalizeGitUrl (normalizeGitUrl url) = normalizeGitUrl url := by
  set O := normalizeGitUrl url with hO
  unfold normalizeGitUrl
  rw [trimChars_eq_self h1, sshRewrite_fix_of_not h2,
    stripHttpScheme_fix_of_not h3 h4, stripGitScheme_fix_of_not h5,
    stripDotGit_fix_of_not h6, stripTrailingSlashes_fix h7, lowerChars_fix h8]

/-- Witness for the amended C9 at the SSH test URL. -/
theorem normalizeGitUrl_idempotent_witness :
    normalizeGitUrl (normalizeGitUrl "git@github.com:user/repo.git") =
      normalizeGitUrl "git@github.com:user/repo.git" :=
  normalizeGitUrl_idempotent_of_stable "git@github.com:user/repo.git"
    (by decide) (by decide) (by decide) (by decide) (by decide) (by decide)
    (by decide) (by decide)

/-- C9 counterexample: `normalizeGitUrl` is not idempotent as stated —
`"A.GIT"` normalizes to `"a.git"` (the case-sensitive `\.git$` strip
misses `.GIT`, and lowercasing runs last), and a second pass strips the
now-lowercase suffix, giving `"a"`. -/
theorem normalizeGitUrl_not_idempotent :
    normalizeGitUrl (normalizeGitUrl "A.GIT") ≠ normalizeGitUrl "A.GIT" := by
  decide

/-! ## Theorems: worktree index, .git file resolution, skip-main gate -/

theorem lexLe_total : ∀ a b : List Char, lexLe a b = true ∨ lexLe b a = true
  | [], _ => Or.inl rfl
  | _ :: _, [] => Or.inr rfl
  | a :: as, b :: bs => by
    unfold lexLe
    rcases Nat.lt_trichotomy a.toNat b.toNat with h | h | h
    · left; simp [h]
    · have h1 : ¬ a.toNat < b.toNat := by omega
      have h2 : ¬ b.toNat < a.toNat := by omega
      rcases lexLe_total as bs with ih | ih
      · left; simp [h1, h2, ih]
      · right; simp [h1, h2, ih]
    · right; simp [h]

theorem lexLe_trans : ∀ a b c : List Char,
    lexLe a b = true → lexLe b c = true → lexLe a c = true
  | [], _, _ => fun _ _ => rfl
  | _ :: _, [], _ => fun h _ => by simp [lexLe] at h
  | _ :: _, _ :: _, [] => fun _ h => by simp [lexLe] at h
  | a :: as, b :: bs, c :: cs => by
    intro h1 h2
    unfold lexLe at h1 h2 ⊢
    by_cases hab : a.toNat < b.toNat
    · by_cases hbc : b.toNat < c.toNat
      · have hac : a.toNat < c.toNat := by omega
        simp [hac]
      · by_cases hcb : c.toNat < b.toNat
        · rw [if_neg hbc, if_pos hcb] at h2
          exact absurd h2 (by simp)
        · have hac : a.toNat < c.toNat := by omega
          simp [hac]
    · by_cases hba : b.toNat < a.toNat
      · rw [if_neg hab, if_pos hba] at h1
        exact absurd h1 (by simp)
      · rw [if_neg hab, if_neg hba] at h1
        by_cases hbc : b.toNat < c.toNat
        · have hac : a.toNat < c.toNat := by omega
          simp [hac]
        · by_cases hcb : c.toNat < b.toNat
          · rw [if_neg hbc, if_pos hcb] at h2
            exact absurd h2 (by simp)
          · rw [if_neg hbc, if_neg hcb] at h2
            have hac1 : ¬ a.toNat < c.toNat := by omega
            have hac2 : ¬ c.toNat < a.toNat := by omega
            rw [if_neg hac1, if_neg hac2]
            exact lexLe_trans as bs cs h1 h2

theorem mem_orderedInsertStr {x a : String} {l : List String} :
    a ∈ orderedInsertStr x l ↔ a = x ∨ a ∈ l := by
  induction l with
  | nil => simp [orderedInsertStr]
  | cons y ys ih =>
    unfold orderedInsertStr
    split
    · simp [List.mem_cons]
    · simp only [List.mem_cons, ih]
      tauto

theorem pairwise_orderedInsertStr {x : String} {l : List String}
    (h : l.Pairwise (fun a b => lexLe a.data b.data = true)) :
    (orderedInsertStr x l).Pairwise (fun a b => lexLe a.data b.data = true) := by
  induction l with
  | nil => simp [orderedInsertStr]
  | cons y ys ih =>
    unfold orderedInsertStr
    rcases List.pairwise_cons.1 h with ⟨hy, hys⟩
    split
    · rename_i hxy
      refine List.pairwise_cons.2 ⟨?_, h⟩
      intro b hb
      rcases List.mem_cons.1 hb with rfl | hb
      · exact hxy
      · exact lexLe_trans _ _ _ hxy (hy b hb)
    · rename_i hxy
      have hyx : lexLe y.data x.data = true := by
        rcases lexLe_total x.data y.data with hh | hh
        · exact absurd hh hxy
        · exact hh
      refine List.pairwise_cons.2 ⟨?_, ih hys⟩
      intro b hb
      rcases mem_orderedInsertStr.1 hb with rfl | hb
      · exact hyx
      · exact hy b hb

theorem sortStrings_sorted (l : List String) :
    (sortStrings l).Pairwise (fun a b => lexLe a.data b.data = true) := by
  induction l with
  | nil => exact List.Pairwise.nil
  | cons x xs ih => exact pairwise_orderedInsertStr ih

/-- C5: the worktree list the index is computed against is sorted by the
code-unit lexicographic order, and `getWorktreeIndex` returns exactly the
rank (`findIdx?`) of the resolved top-level path in that sorted list —
returning 0 when the list is empty, the top level is unavailable or
empty, or no entry matches. -/
theorem worktreeIndex_is_rank_in_sorted_list (out topLevel : Option String)
    (resolvePath : String → String) :
    (getWorktreeList out).Pairwise (fun a b => lexLe a.data b.data = true) ∧
    (getWorktreeList out = [] → getWorktreeIndex out topLevel resolvePath = 0) ∧
    (topLevel = none → getWorktreeIndex out topLevel resolvePath = 0) ∧
    (∀ tl, topLevel = some tl → tl ≠ "" →
      (∀ i, (getWorktreeList out).findIdx?
          (fun wt => resolvePath wt == resolvePath tl) = some i →
        getWorktreeIndex out topLevel resolvePath = i) ∧
      ((getWorktreeList out).findIdx?
          (fun wt => resolvePath wt == resolvePath tl) = none →
        getWorktreeIndex out topLevel resolvePath = 0)) := by
  refine ⟨?_, ?_, ?_, ?_⟩
  · cases out with
    | none => exact List.Pairwise.nil
    | some s => exact sortStrings_sorted (parseWorktreeLines s)
  · intro h
    unfold getWorktreeIndex
    rw [h]
    rfl
  · intro h
    unfold getWorktreeIndex
    rw [h]
    simp
  · intro tl htl hne
    constructor
    · intro i hfind
      unfold getWorktreeIndex
      rw [htl]
      have hlen : ¬ (getWorktreeList out).length = 0 := by
        intro h0
        rw [List.length_eq_zero.mp h0] at hfind
        simp at hfind
      rw [if_neg hlen]
      dsimp only
      rw [if_neg hne, hfind]
    · intro hfind
      unfold getWorktreeIndex
      rw [htl]
      by_cases hlen : (getWorktreeList out).length = 0
      · rw [if_pos hlen]
      · rw [if_neg hlen]
        dsimp only
        rw [if_neg hne, hfind]

/-- Witness for C5: two worktrees, current top level `/b`, rank 1. -/
theorem worktreeIndex_rank_witness :
    getWorktreeIndex (some "worktree /b\nworktree /a") (some "/b") id = 1 :=
  ((worktreeIndex_is_rank_in_sorted_list (some "worktree /b\nworktree /a")
      (some "/b") id).2.2.2 "/b" rfl (by decide)).1 1 (by decide)

/-- C6: when the `.git` entry is a file whose content is
`gitdir: /main/repo/.git/worktrees/featureA`, resolution yields
`isWorktree = true` and `mainRepoPath = "/main/repo"`; when the file has
no parseable `gitdir:` line, `getGitInfo` returns `none` (the embedding
is a total function — no exception reaches the caller). -/
theorem gitFile_resolution (env : GitEnv)
    (hex : env.gitPathExists = true) (hfile : env.gitPathIsFile = true) :
    (env.gitFileContent = "gitdir: /main/repo/.git/worktrees/featureA" →
      (getGitInfo env).map (fun i => (i.isWorktree, i.mainWorktreePath)) =
        some (true, some "/main/repo")) ∧
    (parseGitFile env.gitFileContent = none → getGitInfo env = none) := by
  constructor
  · intro hc
    unfold getGitInfo
    rw [hex, hfile, hc]
    simp [show parseGitFile "gitdir: /main/repo/.git/worktrees/featureA" =
        some "/main/repo/.git/worktrees/featureA" from by decide,
      show extractMainPath "/main/repo/.git/worktrees/featureA" =
        some "/main/repo" from by decide,
      show (("/" : String).data.isPrefixOf
        ("/main/repo/.git/worktrees/featureA" : String).data) = true from by decide]
  · intro hp
    unfold getGitInfo
    rw [hex, hfile, hp]
    simp

/-- Witness for C6 at a concrete environment. -/
theorem gitFile_resolution_witness :
    (getGitInfo ⟨"/ws", true, true, "gitdir: /main/repo/.git/worktrees/featureA",
        none, none, none, fun _ p => p, fun p => p⟩).map
      (fun i => (i.isWorktree, i.mainWorktreePath)) = some (true, some "/main/repo") :=
  (gitFile_resolution _ rfl rfl).1 rfl

/-- C10: neither variant of `applyWorktreeColors` ever writes the
configuration for the main working tree — when the resolved context has
`isWorktree = false` (later variant) or `worktreeIndex = 0` (earlier
variant), the store is untouched, `applied` is `false`, no update runs,
and on the skip path the message is the skip message. -/
theorem applyWorktreeColors_skips_main (firstFolderPath : Option String)
    (respectExisting hasExisting : Bool) (mode : DetectionMode)
    (workspaceFilePath : Option String) (wsFileGi ffGi : Option GitInfo)
    (cfg : ColorConfig) (fg : String) (store : Option Obj)
    (workspacePath : Option String) (env : GitEnv) :
    (∀ gi, detectWorktreeGitInfo mode workspaceFilePath wsFileGi firstFolderPath ffGi
        = some gi → gi.isWorktree = false →
      (applyWorktreeColorsV2 firstFolderPath respectExisting hasExisting mode
          workspaceFilePath wsFileGi ffGi cfg fg store).wrote = false ∧
      (applyWorktreeColorsV2 firstFolderPath respectExisting hasExisting mode
          workspaceFilePath wsFileGi ffGi cfg fg store).applied = false ∧
      (applyWorktreeColorsV2 firstFolderPath respectExisting hasExisting mode
          workspaceFilePath wsFileGi ffGi cfg fg store).store = store ∧
      (firstFolderPath ≠ none → (respectExisting && hasExisting) = false →
        (applyWorktreeColorsV2 firstFolderPath respectExisting hasExisting mode
            workspaceFilePath wsFileGi ffGi cfg fg store).message =
          "Skipping main repository (no color applied)")) ∧
    (∀ gi, getGitInfo env = some gi → gi.worktreeIndex = 0 →
      (applyWorktreeColorsV1 workspacePath env cfg fg store).wrote = false ∧
      (applyWorktreeColorsV1 workspacePath env cfg fg store).applied = false ∧
      (applyWorktreeColorsV1 workspacePath env cfg fg store).store = store ∧
      (workspacePath ≠ none →
        (applyWorktreeColorsV1 workspacePath env cfg fg store).message =
          "Skipping root worktree (no color applied)")) := by
  constructor
  · intro gi hdet hW
    cases firstFolderPath with
    | none =>
      refine ⟨rfl, rfl, rfl, fun hne _ => absurd rfl hne⟩
    | some wp =>
      unfold applyWorktreeColorsV2
      cases hre : respectExisting && hasExisting with
      | true =>
        simp [hre]
      | false =>
        simp [hre, hdet, hW]
  · intro gi hgit hidx
    cases workspacePath with
    | none =>
      refine ⟨rfl, rfl, rfl, fun hne => absurd rfl hne⟩
    | some wp =>
      unfold applyWorktreeColorsV1
      simp [hgit, hidx]

/-- Witness for C10 at concrete main-repository contexts. -/
theorem applyWorktreeColors_skips_main_witness :
    (applyWorktreeColorsV2 (some "/m") true false DetectionMode.firstWorkspaceFolder
        none none (some ⟨"id", false, none, "/m/.git", 0⟩)
        ⟨30, 25, 5, true, true, true⟩ "#e0e0e0" none).wrote = false ∧
    (applyWorktreeColorsV1 (some "/main")
        ⟨"/main", true, false, "", none, none, none, fun _ p => p, fun p => p⟩
        ⟨30, 25, 5, true, true, true⟩ "#e0e0e0" none).message =
      "Skipping root worktree (no color applied)" :=
  ⟨((applyWorktreeColors_skips_main (some "/m") true false
      DetectionMode.firstWorkspaceFolder none none
      (some ⟨"id", false, none, "/m/.git", 0⟩) ⟨30, 25, 5, true, true, true⟩
      "#e0e0e0" none (some "/main")
      ⟨"/main", true, false, "", none, none, none, fun _ p => p, fun p => p⟩).1
      ⟨"id", false, none, "/m/.git", 0⟩ rfl rfl).1,
   ((applyWorktreeColors_skips_main (some "/m") true false
      DetectionMode.firstWorkspaceFolder none none
      (some ⟨"id", false, none, "/m/.git", 0⟩) ⟨30, 25, 5, true, true, true⟩
      "#e0e0e0" none (some "/main")
      ⟨"/main", true, false, "", none, none, none, fun _ p => p, fun p => p⟩).2
      ⟨"main", false, none, "/main/.git", 0⟩ rfl rfl).2.2.2 (by simp)⟩
